import Mathlib

/-!
# The inotify file watcher of package `watch`

A shallow embedding of `src/watch/inotify.go`: the watcher record, the
existence waiter `BlockUntilExists` and the change streamer `ChangeEvents`
with its background translation loop.

The Go code talks to three collaborators that live outside the file:
the fsnotify registry (`fw.w`), the tomb (`t.Dying()`) and the operating
system (`os.Stat`).  Their answers are inputs of the model: every `select`
statement consumes one `Select` outcome, and every iteration of the
translation loop carries the answer `os.Stat(fw.Filename)` would give.
Calls made on the registry and on the sink are recorded in order, so that
effects can be stated as facts about these records.
-/

namespace Watch

/-! ## Paths (`path/filepath`, Unix) -/

/-- The `filepath.Base` function: the last element of the path, trailing
slashes removed first; `.` for the empty path and `/` for a path of slashes. -/
def Base (path : String) : String :=
  if path = "" then "."
  else
    let stripped := path.data.reverse.dropWhile (fun c => c == '/')
    let last := (stripped.takeWhile (fun c => c != '/')).reverse
    if last = [] then "/" else String.mk last

/-- Elements of a path between slashes, empty elements included. -/
def splitSlash : List Char → List (List Char)
  | [] => [[]]
  | c :: cs =>
    match splitSlash cs with
    | [] => if c = '/' then [[], []] else [[c]]
    | e :: es => if c = '/' then [] :: e :: es else (c :: e) :: es

/-- The element loop of `filepath.Clean`; `out` is the stack of elements
written so far, top first. -/
def cleanElems (rooted : Bool) : List (List Char) → List (List Char) → List (List Char)
  | out, [] => out.reverse
  | out, e :: es =>
    if e = [] ∨ e = ['.'] then cleanElems rooted out es
    else if e = ['.', '.'] then
      match out with
      | top :: below =>
        if top = ['.', '.'] then cleanElems rooted (e :: out) es
        else cleanElems rooted below es
      | [] => if rooted then cleanElems rooted [] es else cleanElems rooted [e] es
    else cleanElems rooted (e :: out) es

/-- The `filepath.Clean` function on the characters of a path. -/
def Clean (path : List Char) : List Char :=
  if path = [] then ['.']
  else
    let rooted := path.head? == some '/'
    let body := List.intercalate ['/'] (cleanElems rooted [] (splitSlash path))
    let out := if rooted then '/' :: body else body
    if out = [] then ['.'] else out

/-- The `filepath.Dir` function: everything up to the last slash, cleaned. -/
def Dir (path : String) : String :=
  String.mk (Clean (path.data.reverse.dropWhile (fun c => c != '/')).reverse)

/-! ## Errors and `os.Stat` -/

/-- Error values that reach this file. -/
inductive GoError where
  /-- an error for which `os.IsNotExist` answers true -/
  | ErrNotExist
  /-- any other error reported by the operating system or the registry -/
  | other (msg : String)
  /-- the value built by `fmt.Errorf(msg)` -/
  | Errorf (msg : String)
  /-- the value `tomb.ErrDying` -/
  | ErrDying
  deriving DecidableEq, Repr

/-- The `os.IsNotExist` test; `none` is the nil error. -/
def IsNotExist : Option GoError → Bool
  | some .ErrNotExist => true
  | _ => false

/-- What `os.Stat` returns: the file info (only its `Size()` is used) and the error. -/
structure StatResult where
  size : Int
  err : Option GoError
  deriving DecidableEq, Repr

/-! ## The fsnotify registry -/

/-- Event masks passed to `WatchFlags`. -/
inductive Flags where
  | FSN_CREATE
  | FSN_DELETE
  deriving DecidableEq, Repr

/-- One call made on the registry `fw.w`. -/
inductive RegistryCall where
  | Watch (path : String)
  | WatchFlags (path : String) (flags : Flags)
  | RemoveWatch (path : String)
  deriving DecidableEq, Repr

/-- The registry as this file sees it: the calls made on it, oldest first. -/
structure Watcher where
  calls : List RegistryCall
  deriving DecidableEq, Repr

/-- Record one call on the registry. -/
def Watcher.call (w : Watcher) (c : RegistryCall) : Watcher :=
  { calls := w.calls ++ [c] }

/-- Modelled from the spec: the raw notification event of fsnotify, whose
declaration is outside this file: the affected path and the four
classification predicates. -/
structure FileEvent where
  Name : String
  IsCreate : Bool
  IsDelete : Bool
  IsModify : Bool
  IsRename : Bool
  deriving DecidableEq, Repr

/-- The contract of the notification subsystem: exactly one classification
holds for an event. -/
def FileEvent.exactlyOne (e : FileEvent) : Prop :=
  [e.IsCreate, e.IsDelete, e.IsModify, e.IsRename].count true = 1

instance (e : FileEvent) : Decidable e.exactlyOne := by
  unfold FileEvent.exactlyOne; infer_instance

/-- How one `select` over `fw.w.Event` and `t.Dying()` resolves. -/
inductive Select where
  /-- an event was received (`ok` is true) -/
  | recv (evt : FileEvent)
  /-- the event channel is closed (`ok` is false) -/
  | closed
  /-- the tomb is dying -/
  | dying
  deriving DecidableEq, Repr

/-! ## The watcher -/

/-- The struct `InotifyFileWatcher`; `Size` is an `int64`, never computed with. -/
structure InotifyFileWatcher where
  Filename : String
  Size : Int
  w : Watcher
  deriving DecidableEq, Repr

/-- The constructor `NewInotifyFileWatcher`. -/
def NewInotifyFileWatcher (filename : String) (w : Watcher) : InotifyFileWatcher :=
  { Filename := filename, Size := 0, w := w }

/-! ## The existence waiter -/

/-- What a call of `BlockUntilExists` has done so far. -/
structure BlockResult where
  /-- the watcher after the call -/
  fw : InotifyFileWatcher
  /-- `none`: still waiting in the `select`; `some err`: returned `err`
  (`some none` is the nil error, success) -/
  ret : Option (Option GoError)
  /-- number of calls to `os.Stat` -/
  stats : Nat
  /-- number of `select` statements resolved -/
  selects : Nat
  deriving DecidableEq, Repr

/-- The `for` loop of `BlockUntilExists`, lines 44-55: the value returned
(`none` while the inputs leave the loop waiting) and the number of `select`
statements resolved. -/
def waitLoop (fw : InotifyFileWatcher) : List Select → Option (Option GoError) × Nat
  | [] => (none, 0)
  | .recv evt :: rest =>
    if Base evt.Name = Base fw.Filename then (some none, 1)
    else ((waitLoop fw rest).1, (waitLoop fw rest).2 + 1)
  | .closed :: _ => (some (some (.Errorf "inotify watcher has been closed")), 1)
  | .dying :: _ => (some (some .ErrDying), 1)

/-- The method `BlockUntilExists`. `watchErr` is what `WatchFlags` answers,
`stat` what `os.Stat(fw.Filename)` answers, `sels` how the successive
`select` statements resolve. The deferred `RemoveWatch` runs when the
method returns. -/
def BlockUntilExists (fw : InotifyFileWatcher) (watchErr : Option GoError)
    (stat : StatResult) (sels : List Select) : BlockResult :=
  let dirname := Dir fw.Filename
  let w := fw.w.call (.WatchFlags dirname .FSN_CREATE)
  if watchErr ≠ none then
    { fw := { fw with w := w }, ret := some watchErr, stats := 0, selects := 0 }
  else if !IsNotExist stat.err then
    { fw := { fw with w := w.call (.RemoveWatch dirname) }, ret := some stat.err,
      stats := 1, selects := 0 }
  else
    match waitLoop fw sels with
    | (none, n) => { fw := { fw with w := w }, ret := none, stats := 1, selects := n }
    | (some err, n) =>
      { fw := { fw with w := w.call (.RemoveWatch dirname) }, ret := some err,
        stats := 1, selects := n }

/-! ## The change streamer -/

/-- The semantic change events. -/
inductive Change where
  | Modified
  | Truncated
  | Deleted
  deriving DecidableEq, Repr

/-- Modelled from the spec: the change sink `FileChanges`, declared outside
this file: a closable destination accepting the three kinds of event. The
record keeps the notifications in order and counts the calls of `Close`. -/
structure FileChanges where
  sent : List Change
  closes : Nat
  deriving DecidableEq, Repr

/-- The constructor `NewFileChanges`: nothing sent, not closed. -/
def NewFileChanges : FileChanges := { sent := [], closes := 0 }

/-- The method `NotifyModified`. -/
def FileChanges.NotifyModified (c : FileChanges) : FileChanges :=
  { c with sent := c.sent ++ [.Modified] }

/-- The method `NotifyTruncated`. -/
def FileChanges.NotifyTruncated (c : FileChanges) : FileChanges :=
  { c with sent := c.sent ++ [.Truncated] }

/-- The method `NotifyDeleted`. -/
def FileChanges.NotifyDeleted (c : FileChanges) : FileChanges :=
  { c with sent := c.sent ++ [.Deleted] }

/-- The method `Close`. -/
def FileChanges.Close (c : FileChanges) : FileChanges :=
  { c with closes := c.closes + 1 }

/-- Where the background function of `ChangeEvents` stands. -/
inductive Status where
  /-- inside the `for` loop, at or before the `select` -/
  | running
  /-- returned; the deferred calls have run -/
  | returned
  /-- the process was terminated by `util.Fatal` -/
  | exited
  deriving DecidableEq, Repr

/-- The state the background function works on: the watcher, the captured
`dirname`, the sink and the control state. -/
structure Goroutine where
  fw : InotifyFileWatcher
  dirname : String
  changes : FileChanges
  status : Status
  deriving DecidableEq, Repr

/-- One input of the translation loop: how the `select` resolves, and what
`os.Stat(fw.Filename)` answers should this iteration ask. -/
structure Input where
  sel : Select
  stat : StatResult
  deriving DecidableEq, Repr

/-- Modelled from the spec: `util.Fatal`, declared outside this file, reports
the failure and terminates the process; nothing of the program runs after it. -/
def Goroutine.Fatal (g : Goroutine) : Goroutine :=
  { g with status := .exited }

/-- A `return` of the background function: the three deferred calls run,
last registered first (lines 76-78). -/
def Goroutine.doReturn (g : Goroutine) : Goroutine :=
  let changes := g.changes.Close
  let w := g.fw.w.call (.RemoveWatch g.dirname)
  let w := w.call (.RemoveWatch g.fw.Filename)
  { g with fw := { g.fw with w := w }, changes := changes, status := .returned }

/-- One iteration of the `for` loop, lines 81-124. -/
def iteration (g : Goroutine) (inp : Input) : Goroutine :=
  let prevSize := g.fw.Size
  match inp.sel with
  | .closed => g.doReturn
  | .dying => g.doReturn
  | .recv evt =>
    if evt.IsDelete then
      if Base evt.Name ≠ Base g.fw.Filename then g
      else { g with changes := g.changes.NotifyDeleted }.doReturn
    else if evt.IsRename then
      { g with changes := g.changes.NotifyDeleted }.doReturn
    else if evt.IsModify then
      if inp.stat.err ≠ none then
        if IsNotExist inp.stat.err then
          { g with changes := g.changes.NotifyDeleted }.doReturn
        else g.Fatal
      else
        let fw := { g.fw with Size := inp.stat.size }
        if prevSize > 0 ∧ prevSize > fw.Size then
          { g with fw := fw, changes := g.changes.NotifyTruncated }
        else
          { g with fw := fw, changes := g.changes.NotifyModified }
    else g

/-- The background function on a sequence of inputs: iterations follow one
another while the loop is running; inputs left over are never looked at. -/
def run : Goroutine → List Input → Goroutine
  | g, [] => g
  | g, inp :: rest =>
    match g.status with
    | .running => run (iteration g inp) rest
    | _ => g

/-- The method `ChangeEvents` up to the start of the background function.
`watchErr` and `dirErr` are the answers of the two registrations, `fiSize`
is `fi.Size()`. -/
def ChangeEvents (fw : InotifyFileWatcher) (watchErr dirErr : Option GoError)
    (fiSize : Int) : Goroutine :=
  let changes := NewFileChanges
  let dirname := Dir fw.Filename
  let w := fw.w.call (.Watch fw.Filename)
  if watchErr ≠ none then
    Goroutine.Fatal { fw := { fw with w := w }, dirname := dirname, changes := changes,
                      status := .running }
  else
    let w := w.call (.WatchFlags dirname .FSN_DELETE)
    if dirErr ≠ none then
      Goroutine.Fatal { fw := { fw with w := w }, dirname := dirname, changes := changes,
                        status := .running }
    else
      { fw := { fw with w := w, Size := fiSize }, dirname := dirname, changes := changes,
        status := .running }

/-! ## The translation table of the specification -/

/-- What the specification says one input does: the event emitted, if any,
the size recorded afterwards, and whether the loop ends. -/
structure Translation where
  emit : Option Change
  size : Int
  terminal : Bool
  deriving DecidableEq, Repr

/-- The per-input translation, following the list of cases of the change
streamer in the specification. -/
def translate (filename : String) (size : Int) (inp : Input) : Translation :=
  match inp.sel with
  | .dying => { emit := none, size := size, terminal := true }
  | .closed => { emit := none, size := size, terminal := true }
  | .recv evt =>
    if evt.IsDelete then
      if Base evt.Name = Base filename then
        { emit := some .Deleted, size := size, terminal := true }
      else { emit := none, size := size, terminal := false }
    else if evt.IsRename then { emit := some .Deleted, size := size, terminal := true }
    else if evt.IsModify then
      if IsNotExist inp.stat.err then
        { emit := some .Deleted, size := size, terminal := true }
      else if inp.stat.err ≠ none then { emit := none, size := size, terminal := true }
      else if 0 < size ∧ inp.stat.size < size then
        { emit := some .Truncated, size := inp.stat.size, terminal := false }
      else { emit := some .Modified, size := inp.stat.size, terminal := false }
    else { emit := none, size := size, terminal := false }

/-- The in-order concatenation of the translations, up to and including the
first terminal input. -/
def translateAll (filename : String) : Int → List Input → List Change
  | _, [] => []
  | size, inp :: rest =>
    (translate filename size inp).emit.toList ++
      (if (translate filename size inp).terminal then []
       else translateAll filename (translate filename size inp).size rest)

/-- Whether an event whose base name is the target base name is received
before the channel closes or the tomb dies. -/
def matchedBeforeEnd (fw : InotifyFileWatcher) : List Select → Bool
  | [] => false
  | .recv evt :: rest => Base evt.Name == Base fw.Filename || matchedBeforeEnd fw rest
  | .closed :: _ => false
  | .dying :: _ => false

/-- Whether a creation event for an entry of the parent directory of the
target, with the base name of the target, is received before the channel
closes or the tomb dies. -/
def createdBeforeEnd (fw : InotifyFileWatcher) : List Select → Bool
  | [] => false
  | .recv evt :: rest =>
    (evt.IsCreate && Dir evt.Name == Dir fw.Filename && Base evt.Name == Base fw.Filename)
      || createdBeforeEnd fw rest
  | .closed :: _ => false
  | .dying :: _ => false

/-- An input that can lead to `Deleted`: a delete event with the base name
of the target, a rename event, or a stat answer of not-exist. -/
def mayDelete (filename : String) (inp : Input) : Bool :=
  match inp.sel with
  | .recv evt =>
    (evt.IsDelete && Base evt.Name == Base filename) || evt.IsRename
      || IsNotExist inp.stat.err
  | _ => false

/-- A modify event whose re-stat fails with an error other than not-exist. -/
def statFails (inp : Input) : Bool :=
  match inp.sel with
  | .recv evt => evt.IsModify && inp.stat.err != none && !IsNotExist inp.stat.err
  | _ => false

/-- How the wait of `BlockUntilExists` ends when no event counts: the error
fixed by the first closure or dying signal, `none` while there is neither. -/
def firstSignal : List Select → Option (Option GoError)
  | [] => none
  | .recv _ :: rest => firstSignal rest
  | .closed :: _ => some (some (.Errorf "inotify watcher has been closed"))
  | .dying :: _ => some (some .ErrDying)

/-- Whether an iteration on this input asks `os.Stat`: a received event that
reaches the modify case of the `switch`. -/
def restats (inp : Input) : Bool :=
  match inp.sel with
  | .recv evt => !evt.IsDelete && !evt.IsRename && evt.IsModify
  | _ => false

/-- The size returned by the most recent successful re-stat among `inputs`,
and `init` when there is none. -/
def lastStat (init : Int) (inputs : List Input) : Int :=
  inputs.foldl (fun size inp => if restats inp && inp.stat.err == none then inp.stat.size
                                else size) init

/-- The inputs the background function has processed: those met while the
loop was running. -/
def consumed : Goroutine → List Input → List Input
  | _, [] => []
  | g, inp :: rest =>
    match g.status with
    | .running => inp :: consumed (iteration g inp) rest
    | _ => []

/-- The inputs that end the loop otherwise than by a fatal failure: a closed
channel, a dying tomb, a delete event with the base name of the target, and,
for an event with exactly one classification, a rename event or a modify
event whose re-stat reports not-exist. -/
def endsByReturn (filename : String) (inp : Input) : Bool :=
  match inp.sel with
  | .closed => true
  | .dying => true
  | .recv evt =>
    (evt.IsDelete && Base evt.Name == Base filename)
      || (decide evt.exactlyOne
          && (evt.IsRename || (evt.IsModify && IsNotExist inp.stat.err)))

/-! ## The worked scenario -/

/-- The watcher of the worked scenario before any call. -/
def target : InotifyFileWatcher := NewInotifyFileWatcher "/tmp/a.log" { calls := [] }

/-- The loop of the worked scenario at its start: target `/tmp/a.log`,
registrations accepted, initial size 0. -/
def scenario : Goroutine := ChangeEvents target none none 0

/-- A modify event on the path `name`. -/
def modifyEvent (name : String) : FileEvent :=
  { Name := name, IsCreate := false, IsDelete := false, IsModify := true, IsRename := false }

/-- A delete event on the path `name`. -/
def deleteEvent (name : String) : FileEvent :=
  { Name := name, IsCreate := false, IsDelete := true, IsModify := false, IsRename := false }

/-- A rename event on the path `name`. -/
def renameEvent (name : String) : FileEvent :=
  { Name := name, IsCreate := false, IsDelete := false, IsModify := false, IsRename := true }

/-- A create event on the path `name`. -/
def createEvent (name : String) : FileEvent :=
  { Name := name, IsCreate := true, IsDelete := false, IsModify := false, IsRename := false }

/-! ## Auxiliary facts -/

theorem exactlyOne_modify {e : FileEvent} (hx : e.exactlyOne) (hm : e.IsModify = true) :
    e.IsCreate = false ∧ e.IsDelete = false ∧ e.IsRename = false := by
  obtain ⟨nm, c, d, m, r⟩ := e
  simp only at hm
  subst hm
  revert hx
  cases c <;> cases d <;> cases r <;> simp [FileEvent.exactlyOne]

theorem exactlyOne_rename {e : FileEvent} (hx : e.exactlyOne) (hr : e.IsRename = true) :
    e.IsCreate = false ∧ e.IsDelete = false ∧ e.IsModify = false := by
  obtain ⟨nm, c, d, m, r⟩ := e
  simp only at hr
  subst hr
  revert hx
  cases c <;> cases d <;> cases m <;> simp [FileEvent.exactlyOne]

theorem run_nil (g : Goroutine) : run g [] = g := by
  cases g; rfl

theorem run_cons_running {g : Goroutine} (h : g.status = .running) (inp : Input)
    (rest : List Input) : run g (inp :: rest) = run (iteration g inp) rest := by
  simp [run, h]

theorem run_stopped {g : Goroutine} (h : g.status ≠ .running) (inputs : List Input) :
    run g inputs = g := by
  cases inputs with
  | nil => rfl
  | cons inp rest =>
    cases hs : g.status with
    | running => exact absurd hs h
    | returned => simp [run, hs]
    | exited => simp [run, hs]

theorem run_append (g : Goroutine) (xs ys : List Input) :
    run g (xs ++ ys) = run (run g xs) ys := by
  induction xs generalizing g with
  | nil => simp [run_nil]
  | cons inp rest ih =>
    by_cases h : g.status = .running
    · simp only [List.cons_append, run_cons_running h, ih]
    · rw [run_stopped h, run_stopped h, run_stopped h]

/-- The five things one iteration can do. -/
theorem iteration_outcome (g : Goroutine) (inp : Input) :
    iteration g inp = g
      ∨ iteration g inp = g.doReturn
      ∨ iteration g inp = { g with changes := g.changes.NotifyDeleted }.doReturn
      ∨ iteration g inp = g.Fatal
      ∨ ∃ c, c ≠ Change.Deleted ∧ (iteration g inp).changes.sent = g.changes.sent ++ [c]
          ∧ (iteration g inp).changes.closes = g.changes.closes
          ∧ (iteration g inp).status = g.status := by
  obtain ⟨sel, st⟩ := inp
  cases sel with
  | closed => simp [iteration]
  | dying => simp [iteration]
  | recv evt =>
    simp only [iteration]
    split_ifs <;> simp [FileChanges.NotifyTruncated, FileChanges.NotifyModified]

/-- What a run from a running state with no `Deleted` sent and the sink open
can reach: either still no `Deleted` and the sink closed at most once, or
returned with `Deleted` sent last and the sink closed once. -/
theorem run_deleted_last (inputs : List Input) (g : Goroutine)
    (hrun : g.status = .running) (hnone : Change.Deleted ∉ g.changes.sent)
    (hopen : g.changes.closes = 0) :
    Change.Deleted ∉ (run g inputs).changes.sent
      ∨ ((run g inputs).status = .returned ∧ (run g inputs).changes.closes = 1
          ∧ ∃ pre, (run g inputs).changes.sent = pre ++ [Change.Deleted]
              ∧ Change.Deleted ∉ pre) := by
  induction inputs generalizing g with
  | nil => left; simpa [run_nil] using hnone
  | cons inp rest ih =>
    rw [run_cons_running hrun]
    rcases iteration_outcome g inp with h | h | h | h | ⟨c, hc, hs, hcl, hst⟩
    · rw [h]; exact ih g hrun hnone hopen
    · rw [h, run_stopped (by simp [Goroutine.doReturn])]
      left; simpa [Goroutine.doReturn, FileChanges.Close] using hnone
    · rw [h, run_stopped (by simp [Goroutine.doReturn])]
      right
      refine ⟨by simp [Goroutine.doReturn], ?_, g.changes.sent, ?_, hnone⟩
      · simp [Goroutine.doReturn, FileChanges.Close, FileChanges.NotifyDeleted, hopen]
      · simp [Goroutine.doReturn, FileChanges.Close, FileChanges.NotifyDeleted]
    · rw [h, run_stopped (by simp [Goroutine.Fatal])]
      left; simpa [Goroutine.Fatal] using hnone
    · apply ih
      · rw [hst, hrun]
      · rw [hs]; simp [hnone, hc.symm]
      · rw [hcl, hopen]

/-- No iteration changes `Filename`. -/
theorem iteration_Filename (g : Goroutine) (inp : Input) :
    (iteration g inp).fw.Filename = g.fw.Filename := by
  obtain ⟨sel, st⟩ := inp
  cases sel with
  | closed => simp [iteration, Goroutine.doReturn]
  | dying => simp [iteration, Goroutine.doReturn]
  | recv evt =>
    simp only [iteration]
    split_ifs <;> simp [Goroutine.doReturn, Goroutine.Fatal]

/-- A received event that neither can lead to `Deleted` nor fails its re-stat
keeps the loop running, sends no `Deleted` and leaves the sink as it is. -/
theorem iteration_quiet (g : Goroutine) (evt : FileEvent) (st : StatResult)
    (hd : mayDelete g.fw.Filename ⟨.recv evt, st⟩ = false)
    (hf : statFails ⟨.recv evt, st⟩ = false)
    (hnone : Change.Deleted ∉ g.changes.sent) :
    (iteration g ⟨.recv evt, st⟩).status = g.status
      ∧ Change.Deleted ∉ (iteration g ⟨.recv evt, st⟩).changes.sent
      ∧ (iteration g ⟨.recv evt, st⟩).changes.closes = g.changes.closes := by
  simp only [mayDelete, Bool.or_eq_false_iff, Bool.and_eq_false_imp, beq_iff_eq] at hd
  obtain ⟨⟨hdel, hren⟩, hne⟩ := hd
  simp only [statFails, Bool.and_eq_false_imp, bne_iff_ne, ne_eq, Bool.not_eq_false_eq_eq_true,
    Bool.not_eq_eq_eq_not, Bool.not_true] at hf
  simp only [iteration]
  split_ifs with h1 h2 h3 h4 h5 h6 h7 <;>
    simp_all [FileChanges.NotifyTruncated, FileChanges.NotifyModified]

/-- Inputs none of which can lead to `Deleted` or fails its re-stat leave the
loop either running with the sink open, or returned silently with the sink
closed once; no `Deleted` is sent. -/
theorem run_quiet (pre : List Input) (g : Goroutine)
    (hrun : g.status = .running) (hnone : Change.Deleted ∉ g.changes.sent)
    (hopen : g.changes.closes = 0)
    (hpre : ∀ inp ∈ pre, mayDelete g.fw.Filename inp = false ∧ statFails inp = false) :
    Change.Deleted ∉ (run g pre).changes.sent
      ∧ (((run g pre).status = .running ∧ (run g pre).changes.closes = 0)
          ∨ ((run g pre).status = .returned ∧ (run g pre).changes.closes = 1)) := by
  induction pre generalizing g with
  | nil => rw [run_nil]; exact ⟨hnone, Or.inl ⟨hrun, hopen⟩⟩
  | cons inp rest ih =>
    rw [run_cons_running hrun]
    obtain ⟨sel, st⟩ := inp
    cases sel with
    | closed =>
      rw [run_stopped (by simp [iteration, Goroutine.doReturn])]
      simp [iteration, Goroutine.doReturn, FileChanges.Close, hnone, hopen]
    | dying =>
      rw [run_stopped (by simp [iteration, Goroutine.doReturn])]
      simp [iteration, Goroutine.doReturn, FileChanges.Close, hnone, hopen]
    | recv evt =>
      obtain ⟨hd, hf⟩ := hpre ⟨.recv evt, st⟩ (List.mem_cons_self _ _)
      obtain ⟨h1, h2, h3⟩ := iteration_quiet g evt st hd hf hnone
      apply ih _ (by rw [h1, hrun]) h2 (by rw [h3, hopen])
      intro inp hin
      rw [iteration_Filename]
      exact hpre inp (List.mem_cons_of_mem _ hin)

/-- One iteration of a running loop against the translation table: the
events sent grow by the translation; a terminal input stops the loop; any
other input leaves it running with the translated size. -/
theorem iteration_translate (g : Goroutine) (inp : Input) (hrun : g.status = .running) :
    (iteration g inp).changes.sent
        = g.changes.sent ++ (translate g.fw.Filename g.fw.Size inp).emit.toList
      ∧ ((translate g.fw.Filename g.fw.Size inp).terminal = true →
          (iteration g inp).status ≠ .running)
      ∧ ((translate g.fw.Filename g.fw.Size inp).terminal = false →
          (iteration g inp).status = .running
            ∧ (iteration g inp).fw.Size = (translate g.fw.Filename g.fw.Size inp).size) := by
  obtain ⟨sel, st⟩ := inp
  cases sel with
  | closed => simp [iteration, translate, Goroutine.doReturn, FileChanges.Close]
  | dying => simp [iteration, translate, Goroutine.doReturn, FileChanges.Close]
  | recv evt =>
    simp only [iteration, translate]
    split_ifs <;>
      simp_all [Goroutine.doReturn, Goroutine.Fatal, FileChanges.Close,
        FileChanges.NotifyDeleted, FileChanges.NotifyTruncated, FileChanges.NotifyModified,
        IsNotExist]

/-- The translations of a sequence are at most as many as its inputs. -/
theorem translateAll_length (filename : String) (size : Int) (inputs : List Input) :
    (translateAll filename size inputs).length ≤ inputs.length := by
  induction inputs generalizing size with
  | nil => simp [translateAll]
  | cons inp rest ih =>
    simp only [translateAll, List.length_append, List.length_cons]
    have h1 : (translate filename size inp).emit.toList.length ≤ 1 := by
      cases (translate filename size inp).emit <;> simp
    split_ifs
    · simp; omega
    · have := ih (translate filename size inp).size; omega

/-- Once the watch is registered and the stat reports not-exist, the call
returns what the wait loop returns, after as many `select` statements. -/
theorem BlockUntilExists_wait (fw : InotifyFileWatcher) (stat : StatResult)
    (sels : List Select) (hstat : IsNotExist stat.err = true) :
    (BlockUntilExists fw none stat sels).ret = (waitLoop fw sels).1
      ∧ (BlockUntilExists fw none stat sels).selects = (waitLoop fw sels).2 := by
  simp only [BlockUntilExists, hstat]
  rcases hw : waitLoop fw sels with ⟨_ | err, n⟩ <;> simp

/-- The wait loop over events none of which has the base name of the target. -/
theorem waitLoop_unrelated (fw : InotifyFileWatcher) (sels : List Select)
    (hne : ∀ evt, Select.recv evt ∈ sels → Base evt.Name ≠ Base fw.Filename) :
    (waitLoop fw sels).1 = firstSignal sels := by
  induction sels with
  | nil => rfl
  | cons sel rest ih =>
    cases sel with
    | closed => rfl
    | dying => rfl
    | recv evt =>
      have h := hne evt (List.mem_cons_self _ _)
      simp only [waitLoop, h, if_false, firstSignal]
      exact ih (fun e he => hne e (List.mem_cons_of_mem _ he))

/-- The ending fixed by the first signal is never the nil error. -/
theorem firstSignal_ne_nil (sels : List Select) : firstSignal sels ≠ some none := by
  induction sels with
  | nil => simp [firstSignal]
  | cons sel rest ih => cases sel <;> simp [firstSignal, ih]

/-- The wait goes on exactly as long as there is no signal. -/
theorem firstSignal_eq_none (sels : List Select) :
    firstSignal sels = none ↔ Select.closed ∉ sels ∧ Select.dying ∉ sels := by
  induction sels with
  | nil => simp [firstSignal]
  | cons sel rest ih => cases sel <;> simp [firstSignal, ih]

/-- The wait loop returns nil exactly when an event with the base name of the
target comes before any signal. -/
theorem waitLoop_nil_iff (fw : InotifyFileWatcher) (sels : List Select) :
    (waitLoop fw sels).1 = some none ↔ matchedBeforeEnd fw sels = true := by
  induction sels with
  | nil => simp [waitLoop, matchedBeforeEnd]
  | cons sel rest ih =>
    cases sel with
    | closed => simp [waitLoop, matchedBeforeEnd]
    | dying => simp [waitLoop, matchedBeforeEnd]
    | recv evt =>
      by_cases h : Base evt.Name = Base fw.Filename
      · simp [waitLoop, matchedBeforeEnd, h]
      · simp [waitLoop, matchedBeforeEnd, h, ih]

/-- What one iteration does to the watches and to the sink: nothing, with the
loop in the same control state; or the teardown of a `return`; or nothing,
with the process terminated. -/
theorem iteration_teardown (g : Goroutine) (inp : Input) :
    ((iteration g inp).status = g.status ∧ (iteration g inp).fw.w = g.fw.w
        ∧ (iteration g inp).dirname = g.dirname
        ∧ (iteration g inp).fw.Filename = g.fw.Filename
        ∧ (iteration g inp).changes.closes = g.changes.closes)
      ∨ ((iteration g inp).status = .returned
        ∧ (iteration g inp).fw.w.calls
            = g.fw.w.calls ++ [.RemoveWatch g.dirname, .RemoveWatch g.fw.Filename]
        ∧ (iteration g inp).changes.closes = g.changes.closes + 1)
      ∨ ((iteration g inp).status = .exited ∧ (iteration g inp).fw.w = g.fw.w
        ∧ (iteration g inp).changes.closes = g.changes.closes) := by
  obtain ⟨sel, st⟩ := inp
  cases sel with
  | closed => simp [iteration, Goroutine.doReturn, Watcher.call, FileChanges.Close]
  | dying => simp [iteration, Goroutine.doReturn, Watcher.call, FileChanges.Close]
  | recv evt =>
    simp only [iteration]
    split_ifs <;>
      simp [Goroutine.doReturn, Goroutine.Fatal, Watcher.call, FileChanges.Close,
        FileChanges.NotifyDeleted, FileChanges.NotifyTruncated, FileChanges.NotifyModified]

/-- A run from a running loop with an open sink either has returned, with the
teardown done once, or has not, with no teardown at all. -/
theorem run_teardown (inputs : List Input) (g : Goroutine)
    (hrun : g.status = .running) (hopen : g.changes.closes = 0) :
    ((run g inputs).status = .returned ∧ (run g inputs).changes.closes = 1
        ∧ (run g inputs).fw.w.calls
            = g.fw.w.calls ++ [.RemoveWatch g.dirname, .RemoveWatch g.fw.Filename])
      ∨ ((run g inputs).status ≠ .returned ∧ (run g inputs).changes.closes = 0
        ∧ (run g inputs).fw.w.calls = g.fw.w.calls) := by
  induction inputs generalizing g with
  | nil => right; rw [run_nil]; simp [hrun, hopen]
  | cons inp rest ih =>
    rw [run_cons_running hrun]
    rcases iteration_teardown g inp with
      ⟨hst, hw, hdir, hfn, hcl⟩ | ⟨hst, hcalls, hcl⟩ | ⟨hst, hw, hcl⟩
    · have := ih (iteration g inp) (by rw [hst, hrun]) (by rw [hcl, hopen])
      rw [hw, hdir, hfn] at this
      exact this
    · rw [run_stopped (by simp [hst])]
      left
      exact ⟨hst, by rw [hcl, hopen], hcalls⟩
    · rw [run_stopped (by simp [hst])]
      right
      exact ⟨by simp [hst], by rw [hcl, hopen], by rw [hw]⟩

/-- No run changes `Filename`. -/
theorem run_Filename (inputs : List Input) (g : Goroutine) :
    (run g inputs).fw.Filename = g.fw.Filename := by
  induction inputs generalizing g with
  | nil => rw [run_nil]
  | cons inp rest ih =>
    by_cases hrun : g.status = .running
    · rw [run_cons_running hrun, ih, iteration_Filename]
    · rw [run_stopped hrun]

/-- No iteration changes the captured `dirname`. -/
theorem iteration_dirname (g : Goroutine) (inp : Input) :
    (iteration g inp).dirname = g.dirname := by
  obtain ⟨sel, st⟩ := inp
  cases sel with
  | closed => simp [iteration, Goroutine.doReturn]
  | dying => simp [iteration, Goroutine.doReturn]
  | recv evt =>
    simp only [iteration]
    split_ifs <;> simp [Goroutine.doReturn, Goroutine.Fatal]

/-- No run changes the captured `dirname`. -/
theorem run_dirname (inputs : List Input) (g : Goroutine) :
    (run g inputs).dirname = g.dirname := by
  induction inputs generalizing g with
  | nil => rw [run_nil]
  | cons inp rest ih =>
    by_cases hrun : g.status = .running
    · rw [run_cons_running hrun, ih, iteration_dirname]
    · rw [run_stopped hrun]

/-- An input that cannot lead to `Deleted` does not make an iteration send it. -/
theorem iteration_no_deleted (g : Goroutine) (inp : Input)
    (hd : mayDelete g.fw.Filename inp = false) (hnone : Change.Deleted ∉ g.changes.sent) :
    Change.Deleted ∉ (iteration g inp).changes.sent := by
  obtain ⟨sel, st⟩ := inp
  cases sel with
  | closed => simpa [iteration, Goroutine.doReturn, FileChanges.Close] using hnone
  | dying => simpa [iteration, Goroutine.doReturn, FileChanges.Close] using hnone
  | recv evt =>
    simp only [mayDelete, Bool.or_eq_false_iff, Bool.and_eq_false_imp, beq_iff_eq] at hd
    obtain ⟨⟨hdel, hren⟩, hne⟩ := hd
    simp only [iteration]
    split_ifs <;>
      simp_all [Goroutine.doReturn, Goroutine.Fatal, FileChanges.Close,
        FileChanges.NotifyTruncated, FileChanges.NotifyModified]

/-- Inputs none of which can lead to `Deleted` never make a run send it. -/
theorem run_no_deleted (inputs : List Input) (g : Goroutine)
    (hnone : Change.Deleted ∉ g.changes.sent)
    (hpre : ∀ inp ∈ inputs, mayDelete g.fw.Filename inp = false) :
    Change.Deleted ∉ (run g inputs).changes.sent := by
  induction inputs generalizing g with
  | nil => rwa [run_nil]
  | cons inp rest ih =>
    by_cases hrun : g.status = .running
    · rw [run_cons_running hrun]
      apply ih _ (iteration_no_deleted g inp (hpre inp (List.mem_cons_self _ _)) hnone)
      intro x hx
      rw [iteration_Filename]
      exact hpre x (List.mem_cons_of_mem _ hx)
    · rwa [run_stopped hrun]

/-! ## The translation loop, one event at a time -/

/-- C1: a modify event whose re-stat succeeds with size `n`, met by a running
loop whose recorded size is `p`, emits exactly one event, `Truncated` when
`p > 0` and `p > n` and `Modified` otherwise; the size becomes `n`; the sink
is not closed, no watch is released and the loop goes on with the next input. -/
theorem modify_stat_ok (g : Goroutine) (evt : FileEvent) (n : Int) (rest : List Input)
    (hx : evt.exactlyOne) (hm : evt.IsModify = true) (hrun : g.status = .running) :
    (iteration g ⟨.recv evt, ⟨n, none⟩⟩).changes.sent =
        g.changes.sent ++ [if g.fw.Size > 0 ∧ g.fw.Size > n then .Truncated else .Modified]
      ∧ (iteration g ⟨.recv evt, ⟨n, none⟩⟩).fw.Size = n
      ∧ (iteration g ⟨.recv evt, ⟨n, none⟩⟩).changes.closes = g.changes.closes
      ∧ (iteration g ⟨.recv evt, ⟨n, none⟩⟩).fw.w = g.fw.w
      ∧ (iteration g ⟨.recv evt, ⟨n, none⟩⟩).status = .running
      ∧ run g (⟨.recv evt, ⟨n, none⟩⟩ :: rest) =
          run (iteration g ⟨.recv evt, ⟨n, none⟩⟩) rest := by
  obtain ⟨-, hd, hr⟩ := exactlyOne_modify hx hm
  refine ⟨?_, ?_, ?_, ?_, ?_, run_cons_running hrun _ _⟩ <;>
    by_cases hp : g.fw.Size > 0 ∧ g.fw.Size > n <;>
    simp [iteration, hd, hr, hm, hp, hrun, FileChanges.NotifyTruncated,
      FileChanges.NotifyModified]

/-- Witness of C1: from size 10, a modify event with stat size 3 emits `Truncated`. -/
theorem modify_stat_ok_witness :
    (iteration { scenario with fw := { scenario.fw with Size := 10 } }
        ⟨.recv (modifyEvent "/tmp/a.log"), ⟨3, none⟩⟩).changes.sent = [.Truncated]
      ∧ (iteration { scenario with fw := { scenario.fw with Size := 10 } }
        ⟨.recv (modifyEvent "/tmp/a.log"), ⟨3, none⟩⟩).fw.Size = 3 :=
  have h := modify_stat_ok { scenario with fw := { scenario.fw with Size := 10 } }
    (modifyEvent "/tmp/a.log") 3 [] (by decide) (by decide) (by decide)
  ⟨h.1, h.2.1⟩

/-- C2: `Deleted` is terminal. From a running loop that has sent no `Deleted`
and whose sink is open, whatever the inputs: at most one `Deleted` is sent;
and when one is sent it is the last event, the sink has been closed (once),
the loop has returned, and no further input `more` changes anything. -/
theorem deleted_terminal (g : Goroutine) (inputs more : List Input)
    (hrun : g.status = .running) (hnone : Change.Deleted ∉ g.changes.sent)
    (hopen : g.changes.closes = 0) :
    (run g inputs).changes.sent.count .Deleted ≤ 1
      ∧ (Change.Deleted ∈ (run g inputs).changes.sent →
          (run g inputs).changes.sent.getLast? = some .Deleted
            ∧ (run g inputs).changes.closes = 1
            ∧ (run g inputs).status = .returned
            ∧ run g (inputs ++ more) = run g inputs) := by
  rcases run_deleted_last inputs g hrun hnone hopen with h | ⟨hst, hcl, pre, hs, hpre⟩
  · exact ⟨by simp [List.count_eq_zero_of_not_mem h], fun hin => absurd hin h⟩
  · refine ⟨?_, fun _ => ⟨?_, hcl, hst, ?_⟩⟩
    · rw [hs, List.count_append, List.count_eq_zero_of_not_mem hpre]; simp
    · rw [hs]; simp
    · rw [run_append, run_stopped (by simp [hst])]

/-- Witness of C2: in the worked scenario a matching delete followed by a
create of the same name sends `Deleted` once, last, and closes the sink. -/
theorem deleted_terminal_witness :
    (run scenario [⟨.recv (deleteEvent "/tmp/a.log"), ⟨0, none⟩⟩]).changes.sent = [.Deleted]
      ∧ run scenario ([⟨.recv (deleteEvent "/tmp/a.log"), ⟨0, none⟩⟩]
            ++ [⟨.recv (createEvent "/tmp/a.log"), ⟨0, none⟩⟩])
          = run scenario [⟨.recv (deleteEvent "/tmp/a.log"), ⟨0, none⟩⟩] :=
  ⟨by decide,
   ((deleted_terminal scenario [⟨.recv (deleteEvent "/tmp/a.log"), ⟨0, none⟩⟩]
      [⟨.recv (createEvent "/tmp/a.log"), ⟨0, none⟩⟩]
      (by decide) (by decide) (by decide)).2 (by decide)).2.2.2⟩

/-- C3: a delete event met by a running loop. If its base name differs from
the base name of `Filename`, the state is untouched (nothing emitted, size
unchanged, sink open) and the loop goes on with the next input. If the base
names are equal, exactly one `Deleted` is emitted, the sink is closed and the
loop has returned, so that the inputs left are never looked at. -/
theorem delete_event (g : Goroutine) (evt : FileEvent) (st : StatResult) (rest : List Input)
    (hd : evt.IsDelete = true) (hrun : g.status = .running) :
    (Base evt.Name ≠ Base g.fw.Filename →
        iteration g ⟨.recv evt, st⟩ = g ∧ run g (⟨.recv evt, st⟩ :: rest) = run g rest)
      ∧ (Base evt.Name = Base g.fw.Filename →
          (iteration g ⟨.recv evt, st⟩).changes.sent = g.changes.sent ++ [.Deleted]
            ∧ (iteration g ⟨.recv evt, st⟩).changes.closes = g.changes.closes + 1
            ∧ (iteration g ⟨.recv evt, st⟩).status = .returned
            ∧ run g (⟨.recv evt, st⟩ :: rest) = iteration g ⟨.recv evt, st⟩) := by
  constructor
  · intro hne
    have h : iteration g ⟨.recv evt, st⟩ = g := by simp [iteration, hd, hne]
    exact ⟨h, by rw [run_cons_running hrun, h]⟩
  · intro heq
    have h : iteration g ⟨.recv evt, st⟩
        = { g with changes := g.changes.NotifyDeleted }.doReturn := by
      simp [iteration, hd, heq]
    refine ⟨?_, ?_, ?_, ?_⟩
    · rw [h]; simp [Goroutine.doReturn, FileChanges.Close, FileChanges.NotifyDeleted]
    · rw [h]; simp [Goroutine.doReturn, FileChanges.Close, FileChanges.NotifyDeleted]
    · rw [h]; simp [Goroutine.doReturn]
    · rw [run_cons_running hrun, run_stopped]
      rw [h]; simp [Goroutine.doReturn]

/-- Witness of C3: in the worked scenario the removal of `/tmp/b.log` is
ignored and the removal of `/tmp/a.log` emits `Deleted` and closes the sink. -/
theorem delete_event_witness :
    iteration scenario ⟨.recv (deleteEvent "/tmp/b.log"), ⟨0, none⟩⟩ = scenario
      ∧ (iteration scenario ⟨.recv (deleteEvent "/tmp/a.log"), ⟨0, none⟩⟩).changes
          = { sent := [.Deleted], closes := 1 } :=
  ⟨((delete_event scenario (deleteEvent "/tmp/b.log") ⟨0, none⟩ [] (by decide)
      (by decide)).1 (by decide)).1,
   by
    have h := (delete_event scenario (deleteEvent "/tmp/a.log") ⟨0, none⟩ [] (by decide)
      (by decide)).2 (by decide)
    exact congrArg₂ FileChanges.mk h.1 h.2.1⟩

/-- C4: a rename event does what a delete event with the base name of the
target does, whatever the state and the stat answers: the two iterations end
in the same state, with exactly one `Deleted` emitted, the sink closed and the
loop returned; from a running loop the two runs are equal whatever follows. -/
theorem rename_as_delete (g : Goroutine) (r d : FileEvent) (sr sd : StatResult)
    (restr restd : List Input)
    (hx : r.exactlyOne) (hr : r.IsRename = true) (hd : d.IsDelete = true)
    (hbase : Base d.Name = Base g.fw.Filename) (hrun : g.status = .running) :
    iteration g ⟨.recv r, sr⟩ = iteration g ⟨.recv d, sd⟩
      ∧ (iteration g ⟨.recv r, sr⟩).changes.sent = g.changes.sent ++ [.Deleted]
      ∧ (iteration g ⟨.recv r, sr⟩).changes.closes = g.changes.closes + 1
      ∧ (iteration g ⟨.recv r, sr⟩).status = .returned
      ∧ run g (⟨.recv r, sr⟩ :: restr) = run g (⟨.recv d, sd⟩ :: restd) := by
  obtain ⟨-, hrd, -⟩ := exactlyOne_rename hx hr
  have h1 : iteration g ⟨.recv r, sr⟩
      = { g with changes := g.changes.NotifyDeleted }.doReturn := by
    simp [iteration, hrd, hr]
  have h2 : iteration g ⟨.recv d, sd⟩
      = { g with changes := g.changes.NotifyDeleted }.doReturn := by
    simp [iteration, hd, hbase]
  refine ⟨by rw [h1, h2], ?_, ?_, ?_, ?_⟩
  · rw [h1]; simp [Goroutine.doReturn, FileChanges.Close, FileChanges.NotifyDeleted]
  · rw [h1]; simp [Goroutine.doReturn, FileChanges.Close, FileChanges.NotifyDeleted]
  · rw [h1]; simp [Goroutine.doReturn]
  · rw [run_cons_running hrun, run_cons_running hrun, h1, h2,
      run_stopped (by simp [Goroutine.doReturn]), run_stopped (by simp [Goroutine.doReturn])]

/-- Witness of C4: renaming `/tmp/a.log` and deleting `/tmp/a.log` give the
same run in the worked scenario. -/
theorem rename_as_delete_witness :
    run scenario [⟨.recv (renameEvent "/tmp/a.log"), ⟨0, none⟩⟩]
      = run scenario [⟨.recv (deleteEvent "/tmp/a.log"), ⟨0, none⟩⟩]
      ∧ (run scenario [⟨.recv (renameEvent "/tmp/a.log"), ⟨0, none⟩⟩]).changes
          = { sent := [.Deleted], closes := 1 } :=
  ⟨(rename_as_delete scenario (renameEvent "/tmp/a.log") (deleteEvent "/tmp/a.log")
      ⟨0, none⟩ ⟨0, none⟩ [] [] (by decide) (by decide) (by decide) (by decide)
      (by decide)).2.2.2.2,
   by decide⟩

/-- C5: cancellation is not deletion. A running loop that has sent no
`Deleted` and whose sink is open processes the inputs `pre`, none of them a
matching delete, a rename or a not-exist stat, and is still running when the
tomb is dying or the channel is closed. Then the loop ends on that signal and
the end emits no event: the events sent are those sent before the signal,
`Deleted` is not among them, the sink is closed (once) and the loop has
returned, whatever inputs are left. -/
theorem cancel_silent (g : Goroutine) (pre rest : List Input) (sig : Input)
    (hsig : sig.sel = .closed ∨ sig.sel = .dying)
    (hrun : g.status = .running) (hnone : Change.Deleted ∉ g.changes.sent)
    (hopen : g.changes.closes = 0)
    (hpre : ∀ inp ∈ pre, mayDelete g.fw.Filename inp = false)
    (hreach : (run g pre).status = .running) :
    Change.Deleted ∉ (run g (pre ++ sig :: rest)).changes.sent
      ∧ (run g (pre ++ sig :: rest)).changes.sent = (run g pre).changes.sent
      ∧ (run g (pre ++ sig :: rest)).changes.closes = 1
      ∧ (run g (pre ++ sig :: rest)).status = .returned := by
  have hit : ∀ h : Goroutine, iteration h sig = h.doReturn := by
    intro h
    obtain ⟨sel, st⟩ := sig
    rcases hsig with hs | hs <;> simp only at hs <;> subst hs <;> rfl
  have hq : Change.Deleted ∉ (run g pre).changes.sent := run_no_deleted pre g hnone hpre
  have hcl : (run g pre).changes.closes = 0 := by
    rcases run_teardown pre g hrun hopen with ⟨hst, -, -⟩ | ⟨-, h, -⟩
    · rw [hreach] at hst; cases hst
    · exact h
  rw [run_append, run_cons_running hreach, hit, run_stopped (by simp [Goroutine.doReturn])]
  simp [Goroutine.doReturn, FileChanges.Close, hq, hcl]

/-- Witness of C5: in the worked scenario a growth to 10 bytes, then the dying
signal: only `Modified` was sent and the sink is closed. -/
theorem cancel_silent_witness :
    (run scenario ([⟨.recv (modifyEvent "/tmp/a.log"), ⟨10, none⟩⟩]
        ++ ⟨.dying, ⟨0, none⟩⟩ :: [])).changes = { sent := [.Modified], closes := 1 } :=
  have h := cancel_silent scenario [⟨.recv (modifyEvent "/tmp/a.log"), ⟨10, none⟩⟩] []
    ⟨.dying, ⟨0, none⟩⟩ (by decide) (by decide) (by decide) (by decide) (by decide)
    (by decide)
  (congrArg₂ FileChanges.mk h.2.1 h.2.2.1).trans (by decide)

/-- C6: a modify event whose re-stat fails with a not-exist error, met by a
running loop: exactly one event is emitted and it is `Deleted`, the size is
unchanged, the sink is closed and the loop has returned, so that the inputs
left are never looked at. -/
theorem modify_stat_not_exist (g : Goroutine) (evt : FileEvent) (st : StatResult)
    (rest : List Input)
    (hx : evt.exactlyOne) (hm : evt.IsModify = true) (hne : IsNotExist st.err = true)
    (hrun : g.status = .running) :
    (iteration g ⟨.recv evt, st⟩).changes.sent = g.changes.sent ++ [.Deleted]
      ∧ (iteration g ⟨.recv evt, st⟩).fw.Size = g.fw.Size
      ∧ (iteration g ⟨.recv evt, st⟩).changes.closes = g.changes.closes + 1
      ∧ (iteration g ⟨.recv evt, st⟩).status = .returned
      ∧ run g (⟨.recv evt, st⟩ :: rest) = iteration g ⟨.recv evt, st⟩ := by
  obtain ⟨-, hd, hr⟩ := exactlyOne_modify hx hm
  have herr : st.err ≠ none := by
    intro h; rw [h] at hne; simp [IsNotExist] at hne
  have h : iteration g ⟨.recv evt, st⟩
      = { g with changes := g.changes.NotifyDeleted }.doReturn := by
    simp [iteration, hd, hr, hm, hne, herr]
  refine ⟨?_, ?_, ?_, ?_, ?_⟩
  · rw [h]; simp [Goroutine.doReturn, FileChanges.Close, FileChanges.NotifyDeleted]
  · rw [h]; simp [Goroutine.doReturn]
  · rw [h]; simp [Goroutine.doReturn, FileChanges.Close, FileChanges.NotifyDeleted]
  · rw [h]; simp [Goroutine.doReturn]
  · rw [run_cons_running hrun, run_stopped]
    rw [h]; simp [Goroutine.doReturn]

/-- Witness of C6: in the worked scenario, after the size became 10, a modify
event whose stat reports not-exist emits `Deleted` and leaves the size at 10. -/
theorem modify_stat_not_exist_witness :
    (iteration { scenario with fw := { scenario.fw with Size := 10 } }
        ⟨.recv (modifyEvent "/tmp/a.log"), ⟨0, some .ErrNotExist⟩⟩).changes.sent = [.Deleted]
      ∧ (iteration { scenario with fw := { scenario.fw with Size := 10 } }
        ⟨.recv (modifyEvent "/tmp/a.log"), ⟨0, some .ErrNotExist⟩⟩).fw.Size = 10 :=
  have h := modify_stat_not_exist { scenario with fw := { scenario.fw with Size := 10 } }
    (modifyEvent "/tmp/a.log") ⟨0, some .ErrNotExist⟩ [] (by decide) (by decide)
    (by decide) (by decide)
  ⟨h.1, h.2.1⟩

/-- C7: the loop translates its inputs one at a time and in order. From a
running loop, whatever the inputs, the events sent are those sent before
followed by the in-order concatenation of the per-input translations of the
inputs up to and including the first terminal one; each input contributes at
most one event. -/
theorem run_translates (g : Goroutine) (inputs : List Input) (hrun : g.status = .running) :
    (run g inputs).changes.sent
        = g.changes.sent ++ translateAll g.fw.Filename g.fw.Size inputs
      ∧ (translateAll g.fw.Filename g.fw.Size inputs).length ≤ inputs.length := by
  refine ⟨?_, translateAll_length _ _ _⟩
  induction inputs generalizing g with
  | nil => simp [run_nil, translateAll]
  | cons inp rest ih =>
    obtain ⟨hs, hterm, hgo⟩ := iteration_translate g inp hrun
    rw [run_cons_running hrun]
    simp only [translateAll]
    cases ht : (translate g.fw.Filename g.fw.Size inp).terminal with
    | true => rw [run_stopped (hterm ht), hs]; simp
    | false =>
      obtain ⟨hr, hsz⟩ := hgo ht
      rw [ih _ hr, hs, iteration_Filename, hsz]
      simp

/-- Witness of C7, the worked scenario: initial size 0, a modify with stat
size 10, a modify with stat size 0, the removal of `/tmp/a.log`, then the
creation of `/tmp/a.log`: exactly `Modified`, `Truncated`, `Deleted` are sent
and the sink is closed. -/
theorem run_translates_witness :
    (run scenario [⟨.recv (modifyEvent "/tmp/a.log"), ⟨10, none⟩⟩,
        ⟨.recv (modifyEvent "/tmp/a.log"), ⟨0, none⟩⟩,
        ⟨.recv (deleteEvent "/tmp/a.log"), ⟨0, none⟩⟩,
        ⟨.recv (createEvent "/tmp/a.log"), ⟨0, none⟩⟩]).changes.sent
        = [.Modified, .Truncated, .Deleted]
      ∧ (run scenario [⟨.recv (modifyEvent "/tmp/a.log"), ⟨10, none⟩⟩,
        ⟨.recv (modifyEvent "/tmp/a.log"), ⟨0, none⟩⟩,
        ⟨.recv (deleteEvent "/tmp/a.log"), ⟨0, none⟩⟩,
        ⟨.recv (createEvent "/tmp/a.log"), ⟨0, none⟩⟩]).changes.closes = 1 :=
  ⟨(run_translates scenario [⟨.recv (modifyEvent "/tmp/a.log"), ⟨10, none⟩⟩,
        ⟨.recv (modifyEvent "/tmp/a.log"), ⟨0, none⟩⟩,
        ⟨.recv (deleteEvent "/tmp/a.log"), ⟨0, none⟩⟩,
        ⟨.recv (createEvent "/tmp/a.log"), ⟨0, none⟩⟩] (by decide)).1.trans (by decide),
   by decide⟩

/-! ## The existence waiter -/

/-- C8: the target does not exist at the existence check and every event
delivered has a base name different from the target base name. Then the call
does not return nil; it goes on waiting as long as the channel is not closed
and the tomb is not dying, having resolved one `select` per event; and when
it ends, it ends with the error of the first signal: the closed-watcher error
for a closed channel, `ErrDying` for a dying tomb. -/
theorem unrelated_events_ignored (fw : InotifyFileWatcher) (stat : StatResult)
    (sels : List Select) (hstat : IsNotExist stat.err = true)
    (hne : ∀ evt, Select.recv evt ∈ sels → Base evt.Name ≠ Base fw.Filename) :
    (BlockUntilExists fw none stat sels).ret ≠ some none
      ∧ (BlockUntilExists fw none stat sels).ret = firstSignal sels
      ∧ ((BlockUntilExists fw none stat sels).ret = none ↔
          Select.closed ∉ sels ∧ Select.dying ∉ sels)
      ∧ (Select.closed ∉ sels ∧ Select.dying ∉ sels →
          (BlockUntilExists fw none stat sels).selects = sels.length) := by
  have hret : (BlockUntilExists fw none stat sels).ret = firstSignal sels := by
    rw [(BlockUntilExists_wait fw stat sels hstat).1, waitLoop_unrelated fw sels hne]
  refine ⟨?_, hret, ?_, ?_⟩
  · rw [hret]; exact firstSignal_ne_nil sels
  · rw [hret]; exact firstSignal_eq_none sels
  · rw [(BlockUntilExists_wait fw stat sels hstat).2]
    clear hret
    induction sels with
    | nil => intro _; rfl
    | cons sel rest ih =>
      intro hsig
      cases sel with
      | closed => simp at hsig
      | dying => simp at hsig
      | recv evt =>
        have h := hne evt (List.mem_cons_self _ _)
        simp only [waitLoop, h, if_false, List.length_cons, add_left_inj]
        apply ih (fun e he => hne e (List.mem_cons_of_mem _ he))
        simpa using hsig

/-- Witness of C8: while `/tmp/a.log` is awaited, the creations of `/tmp/b.log`
and `/tmp/c.log` leave the call waiting after two `select` statements. -/
theorem unrelated_events_ignored_witness :
    (BlockUntilExists target none ⟨0, some .ErrNotExist⟩
        [.recv (createEvent "/tmp/b.log"), .recv (createEvent "/tmp/c.log")]).ret = none
      ∧ (BlockUntilExists target none ⟨0, some .ErrNotExist⟩
        [.recv (createEvent "/tmp/b.log"), .recv (createEvent "/tmp/c.log")]).selects = 2 :=
  have h := unrelated_events_ignored target ⟨0, some .ErrNotExist⟩
    [.recv (createEvent "/tmp/b.log"), .recv (createEvent "/tmp/c.log")] (by decide)
    (by
      intro evt hin
      simp only [List.mem_cons, Select.recv.injEq, List.mem_singleton, List.mem_nil_iff,
        or_false] at hin
      rcases hin with rfl | rfl <;> decide)
  ⟨h.2.2.1.mpr (by decide), h.2.2.2 (by decide)⟩

/-- C9, as stated, fails: while `/tmp/a.log` is awaited and does not exist,
the delete event of `/tmp/a.log` makes the call return nil, although no
creation event was delivered. -/
theorem nil_without_creation :
    (BlockUntilExists target none ⟨0, some .ErrNotExist⟩
        [.recv (deleteEvent "/tmp/a.log")]).ret = some none
      ∧ createdBeforeEnd target [.recv (deleteEvent "/tmp/a.log")] = false := by
  decide

/-- C9, amended: when the target does not exist at the existence check, the
call returns nil if and only if an event whose base name equals the target
base name, whatever its classification and its directory, is delivered before
the channel closes or the tomb dies. -/
theorem nil_iff_matched (fw : InotifyFileWatcher) (stat : StatResult) (sels : List Select)
    (hstat : IsNotExist stat.err = true) :
    (BlockUntilExists fw none stat sels).ret = some none ↔ matchedBeforeEnd fw sels = true := by
  rw [(BlockUntilExists_wait fw stat sels hstat).1]
  exact waitLoop_nil_iff fw sels

/-- Witness of C9: the creation of `/tmp/b.log` then of `/tmp/a.log` makes the
call for `/tmp/a.log` return nil. -/
theorem nil_iff_matched_witness :
    (BlockUntilExists target none ⟨0, some .ErrNotExist⟩
        [.recv (createEvent "/tmp/b.log"), .recv (createEvent "/tmp/a.log")]).ret = some none :=
  (nil_iff_matched target ⟨0, some .ErrNotExist⟩
    [.recv (createEvent "/tmp/b.log"), .recv (createEvent "/tmp/a.log")] (by decide)).mpr
    (by decide)

/-- C10: once the directory watch is registered, a stat that succeeds makes
the call return nil and a stat that fails with an error other than not-exist
makes it return that error; in both cases no `select` statement is resolved,
so that neither the channel nor the tomb is looked at, and the inputs they
hold do not matter. -/
theorem conclusive_check_returns (fw : InotifyFileWatcher) (stat : StatResult)
    (sels sels' : List Select) (hstat : IsNotExist stat.err = false) :
    (BlockUntilExists fw none stat sels).ret = some stat.err
      ∧ (BlockUntilExists fw none stat sels).selects = 0
      ∧ (BlockUntilExists fw none stat sels).stats = 1
      ∧ BlockUntilExists fw none stat sels = BlockUntilExists fw none stat sels' := by
  simp [BlockUntilExists, hstat]

/-- Witness of C10: the file exists (nil is returned) or the stat is refused
(the refusal is returned), with a creation event pending in both cases. -/
theorem conclusive_check_returns_witness :
    (BlockUntilExists target none ⟨7, none⟩ [.recv (createEvent "/tmp/a.log")]).ret
        = some none
      ∧ (BlockUntilExists target none ⟨0, some (.other "permission denied")⟩
          [.recv (createEvent "/tmp/a.log")]).ret = some (some (.other "permission denied")) :=
  ⟨(conclusive_check_returns target ⟨7, none⟩ [.recv (createEvent "/tmp/a.log")] []
      (by decide)).1,
   (conclusive_check_returns target ⟨0, some (.other "permission denied")⟩
      [.recv (createEvent "/tmp/a.log")] [] (by decide)).1⟩

/-- Events whose base name differs from the target base name are passed over
by the wait loop. -/
theorem waitLoop_skip (fw : InotifyFileWatcher) (pre : List FileEvent) (tail : List Select)
    (hne : ∀ evt ∈ pre, Base evt.Name ≠ Base fw.Filename) :
    (waitLoop fw (pre.map Select.recv ++ tail)).1 = (waitLoop fw tail).1 := by
  induction pre with
  | nil => rfl
  | cons evt rest ih =>
    have h := hne evt (List.mem_cons_self _ _)
    simp only [List.map_cons, List.cons_append, waitLoop, h, if_false]
    exact ih (fun e he => hne e (List.mem_cons_of_mem _ he))

/-- C11: the target does not exist at the existence check and the events
delivered so far, `pre`, all have a base name different from the target base
name. If the channel is then closed the call returns the error made of the
text `inotify watcher has been closed`; if the tomb is then dying it returns
`ErrDying`; neither is the nil error and the two errors are different. -/
theorem closed_or_dying_fails (fw : InotifyFileWatcher) (stat : StatResult)
    (pre : List FileEvent) (rest : List Select) (hstat : IsNotExist stat.err = true)
    (hne : ∀ evt ∈ pre, Base evt.Name ≠ Base fw.Filename) :
    (BlockUntilExists fw none stat (pre.map Select.recv ++ .closed :: rest)).ret
        = some (some (.Errorf "inotify watcher has been closed"))
      ∧ (BlockUntilExists fw none stat (pre.map Select.recv ++ .dying :: rest)).ret
        = some (some .ErrDying)
      ∧ (BlockUntilExists fw none stat (pre.map Select.recv ++ .closed :: rest)).ret
        ≠ some none
      ∧ (BlockUntilExists fw none stat (pre.map Select.recv ++ .dying :: rest)).ret
        ≠ some none
      ∧ GoError.Errorf "inotify watcher has been closed" ≠ GoError.ErrDying := by
  have hc : (BlockUntilExists fw none stat (pre.map Select.recv ++ .closed :: rest)).ret
      = some (some (.Errorf "inotify watcher has been closed")) := by
    rw [(BlockUntilExists_wait fw stat _ hstat).1, waitLoop_skip fw pre _ hne]; rfl
  have hd : (BlockUntilExists fw none stat (pre.map Select.recv ++ .dying :: rest)).ret
      = some (some .ErrDying) := by
    rw [(BlockUntilExists_wait fw stat _ hstat).1, waitLoop_skip fw pre _ hne]; rfl
  refine ⟨hc, hd, ?_, ?_, ?_⟩
  · rw [hc]; simp
  · rw [hd]; simp
  · simp

/-- Witness of C11: while `/tmp/a.log` is awaited, after the creation of
`/tmp/b.log` a closed channel and a dying tomb give two different errors. -/
theorem closed_or_dying_fails_witness :
    (BlockUntilExists target none ⟨0, some .ErrNotExist⟩
        ([createEvent "/tmp/b.log"].map Select.recv ++ .closed :: [])).ret
        = some (some (.Errorf "inotify watcher has been closed"))
      ∧ (BlockUntilExists target none ⟨0, some .ErrNotExist⟩
        ([createEvent "/tmp/b.log"].map Select.recv ++ .dying :: [])).ret
        = some (some .ErrDying) :=
  have h := closed_or_dying_fails target ⟨0, some .ErrNotExist⟩ [createEvent "/tmp/b.log"] []
    (by decide) (by
      intro evt hin
      simp only [List.mem_singleton] at hin
      subst hin
      decide)
  ⟨h.1, h.2.1⟩

/-- An input that ends the loop by a `return` makes the iteration run the
teardown: the sink is closed once more and the two watches are released, the
directory first. -/
theorem iteration_endsByReturn (g : Goroutine) (inp : Input)
    (hend : endsByReturn g.fw.Filename inp = true) :
    (iteration g inp).status = .returned
      ∧ (iteration g inp).changes.closes = g.changes.closes + 1
      ∧ (iteration g inp).fw.w.calls
          = g.fw.w.calls ++ [.RemoveWatch g.dirname, .RemoveWatch g.fw.Filename] := by
  obtain ⟨sel, st⟩ := inp
  cases sel with
  | closed => simp [iteration, Goroutine.doReturn, Watcher.call, FileChanges.Close]
  | dying => simp [iteration, Goroutine.doReturn, Watcher.call, FileChanges.Close]
  | recv evt =>
    obtain ⟨nm, c, d, m, r⟩ := evt
    obtain ⟨size, err⟩ := st
    simp only [endsByReturn, FileEvent.exactlyOne] at hend
    simp only [iteration]
    cases err <;> cases c <;> cases d <;> cases m <;> cases r <;>
      simp_all [Goroutine.doReturn, Watcher.call, FileChanges.Close,
        FileChanges.NotifyDeleted, IsNotExist]

/-- C12, as stated, fails: in the worked scenario a modify event whose re-stat
fails with a permission error ends the loop, and yet the sink is not closed
and no watch has been released. -/
theorem fatal_stat_no_teardown :
    (run scenario [⟨.recv (modifyEvent "/tmp/a.log"),
        ⟨0, some (.other "permission denied")⟩⟩]).status = .exited
      ∧ (run scenario [⟨.recv (modifyEvent "/tmp/a.log"),
        ⟨0, some (.other "permission denied")⟩⟩]).changes.closes = 0
      ∧ (run scenario [⟨.recv (modifyEvent "/tmp/a.log"),
        ⟨0, some (.other "permission denied")⟩⟩]).fw.w.calls
          = [.Watch "/tmp/a.log", .WatchFlags "/tmp" .FSN_DELETE] := by
  decide

/-- C12, amended: the teardown runs exactly once on every exit path on which
the loop returns. Take a running loop with an open sink that has sent no
`Deleted`. If it is still running after the inputs `pre` and then meets an
input that ends it by a `return` (a closed channel, a dying tomb, a delete of
the target, a rename, a modify whose re-stat reports not-exist), then,
whatever inputs are left, it has returned, the sink is closed exactly once,
and the registry has received after the earlier calls exactly the release of
the directory watch and the release of the file watch. The same holds
whenever `Deleted` has been sent. On any inputs the sink is closed at most
once; a loop that has returned has run the teardown once; a loop that has not
returned, because it still runs or because a fatal stat failure terminated the
process, has run no teardown. -/
theorem teardown_once (g : Goroutine) (pre rest inputs : List Input) (inp : Input)
    (hrun : g.status = .running) (hopen : g.changes.closes = 0)
    (hnone : Change.Deleted ∉ g.changes.sent)
    (hreach : (run g pre).status = .running)
    (hend : endsByReturn g.fw.Filename inp = true) :
    ((run g (pre ++ inp :: rest)).status = .returned
        ∧ (run g (pre ++ inp :: rest)).changes.closes = 1
        ∧ (run g (pre ++ inp :: rest)).fw.w.calls
            = g.fw.w.calls ++ [.RemoveWatch g.dirname, .RemoveWatch g.fw.Filename])
      ∧ (Change.Deleted ∈ (run g inputs).changes.sent →
          (run g inputs).status = .returned
            ∧ (run g inputs).changes.closes = 1
            ∧ (run g inputs).fw.w.calls
                = g.fw.w.calls ++ [.RemoveWatch g.dirname, .RemoveWatch g.fw.Filename])
      ∧ (run g inputs).changes.closes ≤ 1
      ∧ ((run g inputs).status = .returned →
          (run g inputs).changes.closes = 1
            ∧ (run g inputs).fw.w.calls
                = g.fw.w.calls ++ [.RemoveWatch g.dirname, .RemoveWatch g.fw.Filename])
      ∧ ((run g inputs).status ≠ .returned →
          (run g inputs).changes.closes = 0
            ∧ (run g inputs).fw.w.calls = g.fw.w.calls) := by
  have hall : ((run g inputs).status = .returned →
        (run g inputs).changes.closes = 1
          ∧ (run g inputs).fw.w.calls
              = g.fw.w.calls ++ [.RemoveWatch g.dirname, .RemoveWatch g.fw.Filename])
      ∧ ((run g inputs).status ≠ .returned →
        (run g inputs).changes.closes = 0
          ∧ (run g inputs).fw.w.calls = g.fw.w.calls) := by
    rcases run_teardown inputs g hrun hopen with ⟨hst, hcl, hcalls⟩ | ⟨hst, hcl, hcalls⟩
    · exact ⟨fun _ => ⟨hcl, hcalls⟩, fun h => absurd hst h⟩
    · exact ⟨fun h => absurd h hst, fun _ => ⟨hcl, hcalls⟩⟩
  refine ⟨?_, ?_, ?_, hall.1, hall.2⟩
  · have hpre : (run g pre).changes.closes = 0 ∧ (run g pre).fw.w.calls = g.fw.w.calls := by
      rcases run_teardown pre g hrun hopen with ⟨hst, -, -⟩ | ⟨-, hcl, hcalls⟩
      · rw [hreach] at hst; cases hst
      · exact ⟨hcl, hcalls⟩
    have hend' : endsByReturn (run g pre).fw.Filename inp = true := by
      rw [run_Filename]; exact hend
    obtain ⟨hst, hcl, hcalls⟩ := iteration_endsByReturn (run g pre) inp hend'
    rw [run_append, run_cons_running hreach, run_stopped (by simp [hst])]
    refine ⟨hst, by rw [hcl, hpre.1], ?_⟩
    rw [hcalls, hpre.2, run_dirname, run_Filename]
  · intro hin
    rcases run_deleted_last inputs g hrun hnone hopen with h | ⟨hst, -, -⟩
    · exact absurd hin h
    · exact ⟨hst, hall.1 hst⟩
  · by_cases hst : (run g inputs).status = .returned
    · rw [(hall.1 hst).1]
    · rw [(hall.2 hst).1]; omega

/-- Witness of C12: in the worked scenario, after a growth to 10 bytes, a
dying tomb ends the loop with the sink closed once and the two watches
released, the directory first; so does the removal of `/tmp/a.log`. -/
theorem teardown_once_witness :
    ((run scenario ([⟨.recv (modifyEvent "/tmp/a.log"), ⟨10, none⟩⟩]
        ++ ⟨.dying, ⟨0, none⟩⟩ :: [])).changes.closes = 1
      ∧ (run scenario ([⟨.recv (modifyEvent "/tmp/a.log"), ⟨10, none⟩⟩]
        ++ ⟨.dying, ⟨0, none⟩⟩ :: [])).fw.w.calls
          = [.Watch "/tmp/a.log", .WatchFlags "/tmp" .FSN_DELETE,
             .RemoveWatch "/tmp", .RemoveWatch "/tmp/a.log"])
      ∧ (run scenario ([] ++ ⟨.recv (deleteEvent "/tmp/a.log"), ⟨0, none⟩⟩ :: [])).fw.w.calls
          = [.Watch "/tmp/a.log", .WatchFlags "/tmp" .FSN_DELETE,
             .RemoveWatch "/tmp", .RemoveWatch "/tmp/a.log"] :=
  have h := (teardown_once scenario [⟨.recv (modifyEvent "/tmp/a.log"), ⟨10, none⟩⟩] [] []
    ⟨.dying, ⟨0, none⟩⟩ (by decide) (by decide) (by decide) (by decide) (by decide)).1
  have h' := (teardown_once scenario [] [] []
    ⟨.recv (deleteEvent "/tmp/a.log"), ⟨0, none⟩⟩ (by decide) (by decide) (by decide)
    (by decide) (by decide)).1
  ⟨⟨h.2.1, h.2.2.trans (by decide)⟩, h'.2.2.trans (by decide)⟩

/-- C13: once the registration has succeeded, a call that has returned,
whatever it returned (nil because the file exists or because of a matching
event, a stat error, the closed-watcher error or `ErrDying`), has made
exactly two calls on the registry: the registration of the parent directory
and, after it, one release of that same directory. -/
theorem directory_watch_released (fw : InotifyFileWatcher) (stat : StatResult)
    (sels : List Select) (err : Option GoError)
    (hret : (BlockUntilExists fw none stat sels).ret = some err) :
    (BlockUntilExists fw none stat sels).fw.w.calls
        = fw.w.calls ++ [.WatchFlags (Dir fw.Filename) .FSN_CREATE,
            .RemoveWatch (Dir fw.Filename)]
      ∧ (List.drop fw.w.calls.length (BlockUntilExists fw none stat sels).fw.w.calls).count
          (.RemoveWatch (Dir fw.Filename)) = 1 := by
  have hcalls : (BlockUntilExists fw none stat sels).fw.w.calls
      = fw.w.calls ++ [.WatchFlags (Dir fw.Filename) .FSN_CREATE,
          .RemoveWatch (Dir fw.Filename)] := by
    revert hret
    simp only [BlockUntilExists]
    by_cases hs : IsNotExist stat.err = true
    · rcases hw : waitLoop fw sels with ⟨_ | e, n⟩ <;> simp [hs, Watcher.call]
    · simp [hs, Watcher.call]
  refine ⟨hcalls, ?_⟩
  rw [hcalls, List.drop_left]
  simp [List.count_cons]

/-- Witness of C13: the four ways the call for `/tmp/a.log` can end all leave
the registration of `/tmp` followed by one release of `/tmp`. -/
theorem directory_watch_released_witness :
    (BlockUntilExists target none ⟨0, some .ErrNotExist⟩
        [.recv (createEvent "/tmp/a.log")]).fw.w.calls
        = [.WatchFlags "/tmp" .FSN_CREATE, .RemoveWatch "/tmp"]
      ∧ (BlockUntilExists target none ⟨0, some (.other "permission denied")⟩ []).fw.w.calls
        = [.WatchFlags "/tmp" .FSN_CREATE, .RemoveWatch "/tmp"]
      ∧ (BlockUntilExists target none ⟨0, some .ErrNotExist⟩ [.closed]).fw.w.calls
        = [.WatchFlags "/tmp" .FSN_CREATE, .RemoveWatch "/tmp"]
      ∧ (BlockUntilExists target none ⟨0, some .ErrNotExist⟩ [.dying]).fw.w.calls
        = [.WatchFlags "/tmp" .FSN_CREATE, .RemoveWatch "/tmp"] :=
  ⟨(directory_watch_released target ⟨0, some .ErrNotExist⟩
      [.recv (createEvent "/tmp/a.log")] none (by decide)).1.trans (by decide),
   (directory_watch_released target ⟨0, some (.other "permission denied")⟩ []
      (some (.other "permission denied")) (by decide)).1.trans (by decide),
   (directory_watch_released target ⟨0, some .ErrNotExist⟩ [.closed]
      (some (.Errorf "inotify watcher has been closed")) (by decide)).1.trans (by decide),
   (directory_watch_released target ⟨0, some .ErrNotExist⟩ [.dying]
      (some .ErrDying) (by decide)).1.trans (by decide)⟩

/-- The size after one iteration: the size of a successful re-stat, the size
before otherwise. -/
theorem iteration_Size (g : Goroutine) (inp : Input) :
    (iteration g inp).fw.Size
      = if restats inp && inp.stat.err == none then inp.stat.size else g.fw.Size := by
  obtain ⟨sel, st⟩ := inp
  cases sel with
  | closed => simp [iteration, restats, Goroutine.doReturn]
  | dying => simp [iteration, restats, Goroutine.doReturn]
  | recv evt =>
    simp only [iteration, restats]
    split_ifs <;> simp_all [Goroutine.doReturn, Goroutine.Fatal]

/-- The size after a run is the size of the most recent successful re-stat
among the inputs processed. -/
theorem run_Size (inputs : List Input) (g : Goroutine) :
    (run g inputs).fw.Size = lastStat g.fw.Size (consumed g inputs) := by
  induction inputs generalizing g with
  | nil => simp [run_nil, consumed, lastStat]
  | cons inp rest ih =>
    by_cases hrun : g.status = .running
    · rw [run_cons_running hrun, ih]
      simp only [consumed, hrun, lastStat, List.foldl_cons, iteration_Size]
    · rw [run_stopped hrun]
      cases hs : g.status with
      | running => exact absurd hs hrun
      | returned => simp [consumed, hs, lastStat]
      | exited => simp [consumed, hs, lastStat]

/-- C14: the constructor keeps the given `Filename` and starts `Size` at 0;
`BlockUntilExists` leaves `Filename` and `Size` as they are, whatever the
registration, the stat and the events; `ChangeEvents`, its two registrations
accepted, has set `Size` to `fi.Size()` when it returns; and after any inputs
`Size` is the size returned by the most recent successful re-stat among the
inputs processed, the initial size if there is none, while `Filename` is still
the one given. -/
theorem size_follows_stat (filename : String) (w : Watcher) (fw : InotifyFileWatcher)
    (watchErr : Option GoError) (stat : StatResult) (sels : List Select) (fiSize : Int)
    (inputs : List Input) :
    (NewInotifyFileWatcher filename w).Filename = filename
      ∧ (NewInotifyFileWatcher filename w).Size = 0
      ∧ (BlockUntilExists fw watchErr stat sels).fw.Filename = fw.Filename
      ∧ (BlockUntilExists fw watchErr stat sels).fw.Size = fw.Size
      ∧ (ChangeEvents fw none none fiSize).fw.Size = fiSize
      ∧ (ChangeEvents fw none none fiSize).fw.Filename = fw.Filename
      ∧ (ChangeEvents fw none none fiSize).status = .running
      ∧ (run (ChangeEvents fw none none fiSize) inputs).fw.Size
          = lastStat fiSize (consumed (ChangeEvents fw none none fiSize) inputs)
      ∧ (run (ChangeEvents fw none none fiSize) inputs).fw.Filename = fw.Filename := by
  have hb : (BlockUntilExists fw watchErr stat sels).fw.Filename = fw.Filename
      ∧ (BlockUntilExists fw watchErr stat sels).fw.Size = fw.Size := by
    simp only [BlockUntilExists]
    split_ifs
    · exact ⟨rfl, rfl⟩
    · exact ⟨rfl, rfl⟩
    · rcases hw : waitLoop fw sels with ⟨_ | e, n⟩ <;> exact ⟨rfl, rfl⟩
  refine ⟨rfl, rfl, hb.1, hb.2, rfl, rfl, rfl, ?_, ?_⟩
  · rw [run_Size]; rfl
  · rw [run_Filename]; rfl

/-- C15: an event for which none of `IsDelete`, `IsRename` and `IsModify`
holds, a create event with the target base name included, leaves the state
of a running loop as it is: nothing is emitted, the size is unchanged, the
sink is not closed, and the loop goes on with the next input. -/
theorem other_event_ignored (g : Goroutine) (evt : FileEvent) (st : StatResult)
    (rest : List Input) (hd : evt.IsDelete = false) (hr : evt.IsRename = false)
    (hm : evt.IsModify = false) (hrun : g.status = .running) :
    iteration g ⟨.recv evt, st⟩ = g
      ∧ (iteration g ⟨.recv evt, st⟩).changes.sent = g.changes.sent
      ∧ (iteration g ⟨.recv evt, st⟩).fw.Size = g.fw.Size
      ∧ (iteration g ⟨.recv evt, st⟩).changes.closes = g.changes.closes
      ∧ (iteration g ⟨.recv evt, st⟩).status = .running
      ∧ run g (⟨.recv evt, st⟩ :: rest) = run g rest := by
  have h : iteration g ⟨.recv evt, st⟩ = g := by simp [iteration, hd, hr, hm]
  refine ⟨h, ?_, ?_, ?_, ?_, ?_⟩
  · rw [h]
  · rw [h]
  · rw [h]
  · rw [h, hrun]
  · rw [run_cons_running hrun, h]

/-- Witness of C15: in the worked scenario the creation of `/tmp/a.log`
changes nothing. -/
theorem other_event_ignored_witness :
    iteration scenario ⟨.recv (createEvent "/tmp/a.log"), ⟨5, none⟩⟩ = scenario :=
  (other_event_ignored scenario (createEvent "/tmp/a.log") ⟨5, none⟩ [] (by decide)
    (by decide) (by decide) (by decide)).1

/-- C16: the path of a modify or rename event is not looked at. For an event
with exactly one classification, modify or rename, replacing its path by any
other path gives the same iteration, hence the same event emitted, the same
size and the same decision to end, from the same state and with the same stat
answer; and the same run whatever follows. -/
theorem path_not_inspected (g : Goroutine) (evt : FileEvent) (name : String)
    (st : StatResult) (rest : List Input) (hx : evt.exactlyOne)
    (hc : evt.IsModify = true ∨ evt.IsRename = true) :
    iteration g ⟨.recv { evt with Name := name }, st⟩ = iteration g ⟨.recv evt, st⟩
      ∧ run g (⟨.recv { evt with Name := name }, st⟩ :: rest)
          = run g (⟨.recv evt, st⟩ :: rest) := by
  have hd : evt.IsDelete = false := by
    rcases hc with h | h
    · exact (exactlyOne_modify hx h).2.1
    · exact (exactlyOne_rename hx h).2.1
  have h : iteration g ⟨.recv { evt with Name := name }, st⟩
      = iteration g ⟨.recv evt, st⟩ := by
    simp [iteration, hd]
  refine ⟨h, ?_⟩
  by_cases hrun : g.status = .running
  · rw [run_cons_running hrun, run_cons_running hrun, h]
  · rw [run_stopped hrun, run_stopped hrun]

/-- Witness of C16: in the worked scenario a modify event carrying `/var/x`
does what a modify event carrying `/tmp/a.log` does, while for delete events
the path decides. -/
theorem path_not_inspected_witness :
    iteration scenario ⟨.recv { modifyEvent "/tmp/a.log" with Name := "/var/x" }, ⟨5, none⟩⟩
        = iteration scenario ⟨.recv (modifyEvent "/tmp/a.log"), ⟨5, none⟩⟩
      ∧ iteration scenario ⟨.recv (deleteEvent "/var/x"), ⟨5, none⟩⟩
        ≠ iteration scenario ⟨.recv (deleteEvent "/tmp/a.log"), ⟨5, none⟩⟩ :=
  ⟨(path_not_inspected scenario (modifyEvent "/tmp/a.log") "/var/x" ⟨5, none⟩ []
      (by decide) (Or.inl (by decide))).1,
   by decide⟩

/-- C17: when the registration of the parent directory fails with `err`, the
call returns `err` itself; `os.Stat` is not called, no `select` is resolved,
the only call made on the registry is the failed registration (no watch is
released), and neither the stat answer nor the pending events matter. -/
theorem registration_failure_returned (fw : InotifyFileWatcher) (err : GoError)
    (stat stat' : StatResult) (sels sels' : List Select) :
    (BlockUntilExists fw (some err) stat sels).ret = some (some err)
      ∧ (BlockUntilExists fw (some err) stat sels).stats = 0
      ∧ (BlockUntilExists fw (some err) stat sels).selects = 0
      ∧ (BlockUntilExists fw (some err) stat sels).fw.w.calls
          = fw.w.calls ++ [.WatchFlags (Dir fw.Filename) .FSN_CREATE]
      ∧ (∀ path, RegistryCall.RemoveWatch path ∉
          List.drop fw.w.calls.length (BlockUntilExists fw (some err) stat sels).fw.w.calls)
      ∧ BlockUntilExists fw (some err) stat sels = BlockUntilExists fw (some err) stat' sels' := by
  simp [BlockUntilExists, Watcher.call]

end Watch
